import Mathlib

/-!
Verification of the order-overview dashboard against its specification.

The development shallowly embeds the logic of the dashboard:
the filter evaluator, the sort comparator and query pipeline, the
pagination arithmetic of the order table, the unique-value extraction
that populates the filter dropdowns, and the preset save/load/delete
logic backed by the browser key-value store.

Conventions of the embedding:
* JavaScript numbers that hold integers become `Int` (or `Nat` for
  lengths and page counts).
* JavaScript strings become `String`; where the code compares strings
  with `<`, we compare their character lists under the lexicographic
  order, which agrees with the JavaScript code-unit order on strings
  of basic-plane characters.
* `parseInt(s, 10)` is modelled by `parseIntJS`, returning `none`
  where JavaScript returns `NaN`; a comparison `x < NaN` is `false`,
  modelled by the `none` branch of the callers.
* The browser store is a whole-value replace store; keys that hold
  JSON documents are modelled at the parsed-value level except where
  a claim is specifically about parse failures.
-/

/-- Sort direction, `"asc" | "desc"` in the source. -/
inductive SortDir
  | asc
  | desc
  deriving DecidableEq, Repr

/-- The sortable keys: `keyof Order | "daysSinceOrder" | "status"` from
`page.tsx`. -/
inductive SortKey
  | oid
  | statusLeft
  | statusRight
  | type
  | lock
  | customer
  | daysSinceOrder
  | model
  | designer
  | status
  deriving DecidableEq, Repr

/-- One order row, from `src/types/orders.ts`.  `oid` and
`daysSinceOrder` are numeric; all other fields are strings (the status
vocabulary is open, so statuses are plain strings). -/
structure Order where
  oid : Int
  statusLeft : String
  statusRight : String
  type : String
  lock : String
  customer : String
  daysSinceOrder : Int
  model : String
  designer : String
  deriving DecidableEq, Repr

/-- The filterable columns of `FilterState` from `src/types/filters.ts`
(the seven fields the application actually populates). -/
inductive FilterKey
  | status
  | type
  | lock
  | customer
  | model
  | designer
  | days
  deriving DecidableEq, Repr

/-- Active filter selections per column, from `src/types/filters.ts`. -/
structure FilterState where
  status : List String
  type : List String
  lock : List String
  customer : List String
  model : List String
  designer : List String
  days : List String
  deriving DecidableEq, Repr

/-- `defaultFilterState` from `page.tsx`: every field empty. -/
def defaultFilterState : FilterState :=
  ⟨[], [], [], [], [], [], []⟩

/-- A saved preset, from `src/types/filters.ts`. -/
structure Preset where
  name : String
  filters : FilterState
  sortKey : SortKey
  sortDirection : SortDir
  deriving DecidableEq, Repr

/-! ### Models of the JavaScript string primitives used by the code -/

/-- Whitespace recognised by JavaScript `trim` and `parseInt`
(the ASCII whitespace characters plus no-break space; the exotic
Unicode space characters never occur in this application). -/
def isJsWhitespace (c : Char) : Bool :=
  c.toNat == 32 || c.toNat == 9 || c.toNat == 10 || c.toNat == 13 ||
  c.toNat == 11 || c.toNat == 12 || c.toNat == 160

/-- JavaScript `String.prototype.trim`, at the character-list level. -/
def jsTrim (s : String) : String :=
  ⟨((s.data.dropWhile isJsWhitespace).reverse.dropWhile isJsWhitespace).reverse⟩

/-- The numeric value of a digit run (most significant first). -/
def digitsToNat (ds : List Char) : Nat :=
  ds.foldl (fun a c => a * 10 + (c.toNat - 48)) 0

/-- JavaScript `parseInt(s, 10)`: skip leading whitespace, read an
optional sign, then the longest prefix of decimal digits; the result
is `NaN` (here `none`) when that prefix is empty, and otherwise any
trailing garbage is ignored. -/
def parseIntJS (s : String) : Option Int :=
  let cs := s.data.dropWhile isJsWhitespace
  match cs with
  | '-' :: rest =>
      let ds := rest.takeWhile Char.isDigit
      if ds.isEmpty then none else some (-(digitsToNat ds : Int))
  | '+' :: rest =>
      let ds := rest.takeWhile Char.isDigit
      if ds.isEmpty then none else some (digitsToNat ds : Int)
  | _ =>
      let ds := cs.takeWhile Char.isDigit
      if ds.isEmpty then none else some (digitsToNat ds : Int)

/-- Remove the first occurrence of a character from a character list. -/
def removeFirstChar (target : Char) : List Char → List Char
  | [] => []
  | c :: cs => if c = target then cs else c :: removeFirstChar target cs

/-- JavaScript `f.replace("<", "")`: removes only the first `<`. -/
def replaceFirstLtStr (s : String) : String :=
  ⟨removeFirstChar '<' s.data⟩

/-! ### Filter evaluator (`page.tsx`) -/

/-- `matchDays` from `page.tsx`: an empty selection matches; otherwise
some selected bucket label, with its first `<` removed and the rest
parsed by `parseInt`, must give a threshold strictly above the value.
A label whose parse is `NaN` compares `value < NaN = false`. -/
def matchDays (value : Int) (filters : List String) : Bool :=
  if filters.length = 0 then true
  else filters.any (fun f =>
    match parseIntJS (replaceFirstLtStr f) with
    | some threshold => decide (value < threshold)
    | none => false)

/-- One step of the `Object.entries(filters).every(...)` loop in
`filteredOrders` (`page.tsx`): an empty selection always passes; `days`
goes through `matchDays`; `status` checks both status columns; every
other key is an exact membership test on the corresponding field. -/
def entryMatches (o : Order) (key : FilterKey) (selected : List String) : Bool :=
  if selected.length = 0 then true
  else match key with
    | .days => matchDays o.daysSinceOrder selected
    | .status => selected.contains o.statusLeft || selected.contains o.statusRight
    | .type => selected.contains o.type
    | .lock => selected.contains o.lock
    | .customer => selected.contains o.customer
    | .model => selected.contains o.model
    | .designer => selected.contains o.designer

/-- The entries of a `FilterState` in object-key order. -/
def filterEntries (fs : FilterState) : List (FilterKey × List String) :=
  [(.status, fs.status), (.type, fs.type), (.lock, fs.lock),
   (.customer, fs.customer), (.model, fs.model), (.designer, fs.designer),
   (.days, fs.days)]

/-- The filter predicate of `filteredOrders` (`page.tsx`): every entry
of the filter state must pass. -/
def matchesOrder (fs : FilterState) (o : Order) : Bool :=
  (filterEntries fs).all (fun e => entryMatches o e.1 e.2)

/-- `filteredOrders` from `page.tsx`. -/
def filteredOrders (os : List Order) (fs : FilterState) : List Order :=
  os.filter (fun o => matchesOrder fs o)

/-! ### Claim-side restatement of the filter contract (C1) -/

/-- The threshold the specification assigns to a bucket label: strip
the `<` and convert the remainder to an integer, none if malformed. -/
def labelThreshold (label : String) : Option Int :=
  parseIntJS (replaceFirstLtStr label)

/-- Specification wording: a plain field matches when the selection is
empty or contains the field value. -/
def fieldMatchesSpec (selected : List String) (value : String) : Prop :=
  selected = [] ∨ value ∈ selected

/-- Specification wording for the status field: either status column
may be the selected one. -/
def statusMatchesSpec (selected : List String) (o : Order) : Prop :=
  selected = [] ∨ o.statusLeft ∈ selected ∨ o.statusRight ∈ selected

/-- Specification wording for the days field: some selected label
yields a threshold strictly above `daysSinceOrder`; malformed labels
yield no threshold and never match. -/
def daysMatchesSpec (selected : List String) (value : Int) : Prop :=
  selected = [] ∨ ∃ l ∈ selected, ∃ t, labelThreshold l = some t ∧ value < t

/-- Specification wording of the whole filter contract: AND across the
seven fields, with the per-field rules above. -/
def matchesSpec (fs : FilterState) (o : Order) : Prop :=
  statusMatchesSpec fs.status o ∧
  fieldMatchesSpec fs.type o.type ∧
  fieldMatchesSpec fs.lock o.lock ∧
  fieldMatchesSpec fs.customer o.customer ∧
  fieldMatchesSpec fs.model o.model ∧
  fieldMatchesSpec fs.designer o.designer ∧
  daysMatchesSpec fs.days o.daysSinceOrder

/-! ### Helper lemmas for the filter evaluator -/

lemma contains_iff_mem (l : List String) (a : String) :
    l.contains a = true ↔ a ∈ l := by
  simp [List.contains, List.elem_iff]

lemma option_threshold_iff (x : Option Int) (v : Int) :
    (match x with
      | some threshold => decide (v < threshold)
      | none => false) = true ↔ ∃ t, x = some t ∧ v < t := by
  cases x <;> simp

lemma entry_status_iff (o : Order) (sel : List String) :
    entryMatches o .status sel = true ↔ statusMatchesSpec sel o := by
  unfold entryMatches statusMatchesSpec
  by_cases h : sel.length = 0
  · simp [h, List.length_eq_zero.mp h]
  · simp only [if_neg h, List.length_eq_zero] at *
    simp [h, contains_iff_mem]

lemma entry_days_iff (o : Order) (sel : List String) :
    entryMatches o .days sel = true ↔ daysMatchesSpec sel o.daysSinceOrder := by
  unfold entryMatches daysMatchesSpec matchDays
  by_cases h : sel.length = 0
  · simp [h, List.length_eq_zero.mp h]
  · have hne : sel ≠ [] := by
      intro hc
      exact h (by simp [hc])
    simp only [if_neg h, List.any_eq_true, option_threshold_iff, labelThreshold]
    simp [hne]

lemma entry_type_iff (o : Order) (sel : List String) :
    entryMatches o .type sel = true ↔ fieldMatchesSpec sel o.type := by
  unfold entryMatches fieldMatchesSpec
  by_cases h : sel.length = 0
  · simp [h, List.length_eq_zero.mp h]
  · simp only [if_neg h, List.length_eq_zero] at *
    simp [h, contains_iff_mem]

lemma entry_lock_iff (o : Order) (sel : List String) :
    entryMatches o .lock sel = true ↔ fieldMatchesSpec sel o.lock := by
  unfold entryMatches fieldMatchesSpec
  by_cases h : sel.length = 0
  · simp [h, List.length_eq_zero.mp h]
  · simp only [if_neg h, List.length_eq_zero] at *
    simp [h, contains_iff_mem]

lemma entry_customer_iff (o : Order) (sel : List String) :
    entryMatches o .customer sel = true ↔ fieldMatchesSpec sel o.customer := by
  unfold entryMatches fieldMatchesSpec
  by_cases h : sel.length = 0
  · simp [h, List.length_eq_zero.mp h]
  · simp only [if_neg h, List.length_eq_zero] at *
    simp [h, contains_iff_mem]

lemma entry_model_iff (o : Order) (sel : List String) :
    entryMatches o .model sel = true ↔ fieldMatchesSpec sel o.model := by
  unfold entryMatches fieldMatchesSpec
  by_cases h : sel.length = 0
  · simp [h, List.length_eq_zero.mp h]
  · simp only [if_neg h, List.length_eq_zero] at *
    simp [h, contains_iff_mem]

lemma entry_designer_iff (o : Order) (sel : List String) :
    entryMatches o .designer sel = true ↔ fieldMatchesSpec sel o.designer := by
  unfold entryMatches fieldMatchesSpec
  by_cases h : sel.length = 0
  · simp [h, List.length_eq_zero.mp h]
  · simp only [if_neg h, List.length_eq_zero] at *
    simp [h, contains_iff_mem]

/-- C1: `matchesOrder` returns true iff the order matches every field
independently: empty selections match; a non-empty status selection
matches iff `statusLeft` or `statusRight` is selected; a non-empty days
selection matches iff `daysSinceOrder` is strictly below the threshold
parsed from at least one selected label (malformed labels never match
and never crash); every other field is exact string membership. -/
theorem matchesOrder_iff_fieldwise (fs : FilterState) (o : Order) :
    matchesOrder fs o = true ↔ matchesSpec fs o := by
  unfold matchesOrder filterEntries matchesSpec
  simp only [List.all_cons, List.all_nil, Bool.and_eq_true, and_true]
  rw [entry_status_iff, entry_type_iff, entry_lock_iff, entry_customer_iff,
    entry_model_iff, entry_designer_iff, entry_days_iff]

/-! ### Sort comparator and query pipeline (`page.tsx`) -/

/-- The fixed status priority list from `sortedAndFilteredOrders`. -/
def statusPriority : List String :=
  ["Open Order", "Printing", "Drying", "QC", "Ready for Packaging", "Delivered"]

/-- `statusPriority.indexOf(statusLeft)`: the index of the first equal
element, `-1` when the status is absent. -/
def statusIndex (s : String) : Int :=
  match statusPriority.findIdx? (fun t => t == s) with
  | some i => (i : Int)
  | none => -1

/-- The comparator body of `sortedAndFilteredOrders`: `-1` when the
first value is smaller, `1` when larger, `0` on ties, with `desc`
flipping the sign.  Used at `Int` for the numeric keys and at
`List Char` for the string keys. -/
def cmpVal {α : Type} [LinearOrder α] (a b : α) (d : SortDir) : Int :=
  if a < b then (match d with | .asc => -1 | .desc => 1)
  else if b < a then (match d with | .asc => 1 | .desc => -1)
  else 0

/-- The full comparator of `sortedAndFilteredOrders`: `daysSinceOrder`
compares numerically, the synthetic `status` key compares the priority
indices of `statusLeft`, and every other key compares the field the
key names (numeric for `oid`, string otherwise). -/
def compareOrders (k : SortKey) (d : SortDir) (a b : Order) : Int :=
  match k with
  | .daysSinceOrder => cmpVal a.daysSinceOrder b.daysSinceOrder d
  | .status => cmpVal (statusIndex a.statusLeft) (statusIndex b.statusLeft) d
  | .oid => cmpVal a.oid b.oid d
  | .statusLeft => cmpVal a.statusLeft.data b.statusLeft.data d
  | .statusRight => cmpVal a.statusRight.data b.statusRight.data d
  | .type => cmpVal a.type.data b.type.data d
  | .lock => cmpVal a.lock.data b.lock.data d
  | .customer => cmpVal a.customer.data b.customer.data d
  | .model => cmpVal a.model.data b.model.data d
  | .designer => cmpVal a.designer.data b.designer.data d

/-- The non-strict order induced by the comparator. -/
def sortLe (k : SortKey) (d : SortDir) (a b : Order) : Bool :=
  decide (compareOrders k d a b ≤ 0)

/-- `sortedAndFilteredOrders` from `page.tsx`: a copy of the filtered
list sorted with the comparator.  `Array.prototype.sort` is stable and
sorts under a consistent comparator, which pins its output down to the
stable merge sort by `compareOrders ≤ 0`. -/
def sortedAndFilteredOrders (os : List Order) (fs : FilterState)
    (k : SortKey) (d : SortDir) : List Order :=
  (filteredOrders os fs).mergeSort (sortLe k d)

/-! ### Order-theoretic facts about the comparator -/

lemma cmpVal_le_zero_asc {α : Type} [LinearOrder α] (a b : α) :
    cmpVal a b .asc ≤ 0 ↔ a ≤ b := by
  unfold cmpVal
  split_ifs with h1 h2
  · exact iff_of_true (by decide) h1.le
  · exact iff_of_false (by decide) (not_le.mpr h2)
  · exact iff_of_true (by decide) (le_of_not_lt h2)

lemma cmpVal_le_zero_desc {α : Type} [LinearOrder α] (a b : α) :
    cmpVal a b .desc ≤ 0 ↔ b ≤ a := by
  unfold cmpVal
  split_ifs with h1 h2
  · exact iff_of_false (by decide) (not_le.mpr h1)
  · exact iff_of_true (by decide) h2.le
  · exact iff_of_true (by decide) (le_of_not_lt h1)

lemma cmpVal_eq_zero {α : Type} [LinearOrder α] (a b : α) (d : SortDir) :
    cmpVal a b d = 0 ↔ a = b := by
  cases d <;> unfold cmpVal <;> split_ifs with h1 h2
  · exact iff_of_false (by decide) (ne_of_lt h1)
  · exact iff_of_false (by decide) (ne_of_gt h2)
  · exact iff_of_true rfl (le_antisymm (le_of_not_lt h2) (le_of_not_lt h1))
  · exact iff_of_false (by decide) (ne_of_lt h1)
  · exact iff_of_false (by decide) (ne_of_gt h2)
  · exact iff_of_true rfl (le_antisymm (le_of_not_lt h2) (le_of_not_lt h1))

lemma compareOrders_le_trans (k : SortKey) (d : SortDir) (a b c : Order) :
    compareOrders k d a b ≤ 0 → compareOrders k d b c ≤ 0 →
    compareOrders k d a c ≤ 0 := by
  cases d
  · cases k <;> simp only [compareOrders, cmpVal_le_zero_asc] <;> exact le_trans
  · cases k <;> simp only [compareOrders, cmpVal_le_zero_desc] <;>
      exact fun h1 h2 => le_trans h2 h1

lemma compareOrders_le_total (k : SortKey) (d : SortDir) (a b : Order) :
    compareOrders k d a b ≤ 0 ∨ compareOrders k d b a ≤ 0 := by
  cases d
  · cases k <;> simp only [compareOrders, cmpVal_le_zero_asc] <;> exact le_total _ _
  · cases k <;> simp only [compareOrders, cmpVal_le_zero_desc] <;> exact le_total _ _

lemma sortLe_trans (k : SortKey) (d : SortDir) :
    ∀ a b c : Order, sortLe k d a b = true → sortLe k d b c = true →
      sortLe k d a c = true := by
  intro a b c h1 h2
  simp only [sortLe, decide_eq_true_eq] at *
  exact compareOrders_le_trans k d a b c h1 h2

lemma sortLe_total (k : SortKey) (d : SortDir) :
    ∀ a b : Order, (sortLe k d a b || sortLe k d b a) = true := by
  intro a b
  simp only [sortLe, Bool.or_eq_true, decide_eq_true_eq]
  exact compareOrders_le_total k d a b

lemma statusIndex_neg_of_not_mem (s : String) (h : s ∉ statusPriority) :
    statusIndex s = -1 := by
  unfold statusIndex
  have : statusPriority.findIdx? (fun t => t == s) = none := by
    rw [List.findIdx?_eq_none_iff]
    intro x hx
    simp only [beq_eq_false_iff_ne, ne_eq]
    intro hxs
    exact h (hxs ▸ hx)
  rw [this]

lemma statusIndex_nonneg_of_mem (s : String) (h : s ∈ statusPriority) :
    0 ≤ statusIndex s := by
  unfold statusIndex
  cases hfind : statusPriority.findIdx? (fun t => t == s) with
  | none =>
      rw [List.findIdx?_eq_none_iff] at hfind
      have := hfind s h
      simp at this
  | some i => exact Int.ofNat_nonneg i

/-- C4: with the synthetic `status` key ascending, the comparator
orders two orders by the index of their `statusLeft` in the fixed
priority list; a status absent from the list gets index `-1` and so
sorts before every order whose status is listed. -/
theorem status_sort_by_priority_index (a b : Order) :
    (compareOrders .status .asc a b =
      (if statusIndex a.statusLeft < statusIndex b.statusLeft then -1
       else if statusIndex b.statusLeft < statusIndex a.statusLeft then 1 else 0)) ∧
    (a.statusLeft ∉ statusPriority → statusIndex a.statusLeft = -1) ∧
    (a.statusLeft ∉ statusPriority → b.statusLeft ∈ statusPriority →
      compareOrders .status .asc a b = -1) := by
  refine ⟨rfl, statusIndex_neg_of_not_mem _, fun ha hb => ?_⟩
  have h1 : statusIndex a.statusLeft = -1 := statusIndex_neg_of_not_mem _ ha
  have h2 : (0 : Int) ≤ statusIndex b.statusLeft := statusIndex_nonneg_of_mem _ hb
  simp only [compareOrders, cmpVal, h1]
  rw [if_pos (by omega)]

/-- Two concrete orders: one with a status outside the priority list,
one with the lowest listed status; both of type `"Order"`. -/
def oUnknownStatus : Order :=
  ⟨1, "Mystery", "QC", "Order", "", "ACME", 3, "M1", "D1"⟩

/-- A second concrete order with a listed status. -/
def oOpenOrder : Order :=
  ⟨2, "Open Order", "QC", "Order", "", "ACME", 4, "M2", "D2"⟩

/-- Witness for C4 at the two concrete orders above. -/
theorem status_sort_by_priority_index_witness :
    oUnknownStatus.statusLeft ∉ statusPriority ∧
    compareOrders .status .asc oUnknownStatus oOpenOrder = -1 :=
  ⟨by decide,
   (status_sort_by_priority_index oUnknownStatus oOpenOrder).2.2 (by decide) (by decide)⟩

/-- C7: the query pipeline is deterministic (identical inputs give
identical outputs) and stable: two orders that both pass the filter,
appear in the input in a given relative position, and compare equal
under the sort key keep that relative position in the output. -/
theorem pipeline_deterministic_and_stable :
    (∀ os₁ os₂ fs₁ fs₂ k₁ k₂ d₁ d₂, os₁ = os₂ → fs₁ = fs₂ → k₁ = k₂ → d₁ = d₂ →
      sortedAndFilteredOrders os₁ fs₁ k₁ d₁ = sortedAndFilteredOrders os₂ fs₂ k₂ d₂) ∧
    (∀ os fs k d a b, compareOrders k d a b = 0 →
      List.Sublist [a, b] os →
      matchesOrder fs a = true → matchesOrder fs b = true →
      List.Sublist [a, b] (sortedAndFilteredOrders os fs k d)) := by
  constructor
  · intro os₁ os₂ fs₁ fs₂ k₁ k₂ d₁ d₂ h1 h2 h3 h4
    rw [h1, h2, h3, h4]
  · intro os fs k d a b hcmp hsub ha hb
    have hfilter : List.Sublist [a, b] (filteredOrders os fs) := by
      have := List.Sublist.filter (fun o => matchesOrder fs o) hsub
      simpa [ha, hb] using this
    refine List.pair_sublist_mergeSort (sortLe_trans k d) (sortLe_total k d) ?_ hfilter
    simp only [sortLe, decide_eq_true_eq, hcmp]
    decide

/-- Witness for C7: two tied orders under the `type` key stay in input
order through the pipeline. -/
theorem pipeline_deterministic_and_stable_witness :
    List.Sublist [oUnknownStatus, oOpenOrder]
      (sortedAndFilteredOrders [oUnknownStatus, oOpenOrder] defaultFilterState .type .asc) :=
  pipeline_deterministic_and_stable.2 [oUnknownStatus, oOpenOrder] defaultFilterState
    .type .asc oUnknownStatus oOpenOrder (by decide) (by decide) (by decide) (by decide)

/-! ### Paginator (`OrderTable`) -/

/-- `rowsPerPage` from `OrderTable`: the fixed page size. -/
def rowsPerPage : Nat := 10

/-- `Math.ceil(data.length / pageSize)` from `OrderTable`: ceiling
division on naturals. -/
def pages (data : List Order) (pageSize : Nat) : Nat :=
  (data.length + pageSize - 1) / pageSize

/-- `data.slice((page - 1) * pageSize, page * pageSize)` from
`OrderTable`. -/
def paginatedData (data : List Order) (page pageSize : Nat) : List Order :=
  (data.drop ((page - 1) * pageSize)).take (page * pageSize - (page - 1) * pageSize)

lemma ceil_div_bounds (len ps : Nat) (hps : 0 < ps) :
    len ≤ (len + ps - 1) / ps * ps ∧ (len + ps - 1) / ps * ps < len + ps := by
  obtain ⟨p, rfl⟩ : ∃ p, ps = p + 1 := ⟨ps - 1, (Nat.succ_pred_eq_of_pos hps).symm⟩
  have hring : len + (p + 1) - 1 = len + p := by omega
  have hdm := Nat.div_add_mod (len + p) (p + 1)
  have hmod : (len + p) % (p + 1) < p + 1 := Nat.mod_lt _ (Nat.succ_pos p)
  rw [hring]
  constructor
  · rw [mul_comm]
    linarith
  · rw [mul_comm]
    have hA : (p + 1) * ((len + p) / (p + 1)) ≤ len + p := Nat.le.intro hdm
    exact Nat.lt_of_le_of_lt hA (by omega)

/-- C2 counterexample: for the empty sequence the code computes
`Math.ceil(0 / 10) = 0` total pages, not the minimum of 1 the claim
asserts. -/
theorem pages_empty_counterexample :
    pages ([] : List Order) rowsPerPage = 0 ∧
    ¬ 1 ≤ pages ([] : List Order) rowsPerPage := by
  decide

/-- C2 (amended): `pages` is exactly ceiling division — the page count
covers the whole sequence and has no spare page — and it is at least 1
for a nonempty sequence; but for an empty sequence it is 0, with no
minimum of one page. -/
theorem pages_eq_ceil (data : List Order) (pageSize : Nat) (hps : 0 < pageSize) :
    data.length ≤ pages data pageSize * pageSize ∧
    pages data pageSize * pageSize < data.length + pageSize ∧
    (data = [] → pages data pageSize = 0) ∧
    (data ≠ [] → 1 ≤ pages data pageSize) := by
  obtain ⟨h1, h2⟩ := ceil_div_bounds data.length pageSize hps
  refine ⟨h1, h2, ?_, ?_⟩
  · intro he
    subst he
    show (0 + pageSize - 1) / pageSize = 0
    apply Nat.div_eq_of_lt
    omega
  · intro hne
    rcases Nat.eq_zero_or_pos (pages data pageSize) with h0 | hpos
    · exfalso
      have h0' : (data.length + pageSize - 1) / pageSize = 0 := h0
      rw [h0', Nat.zero_mul, Nat.le_zero, List.length_eq_zero] at h1
      exact hne h1
    · exact hpos

/-- Witness for C2 (amended) at a one-element sequence and the page
size of the source. -/
theorem pages_eq_ceil_witness :
    0 < 10 ∧
    (([oUnknownStatus] : List Order).length ≤ pages [oUnknownStatus] 10 * 10 ∧
     pages [oUnknownStatus] 10 * 10 < ([oUnknownStatus] : List Order).length + 10 ∧
     (([oUnknownStatus] : List Order) = [] → pages [oUnknownStatus] 10 = 0) ∧
     (([oUnknownStatus] : List Order) ≠ [] → 1 ≤ pages [oUnknownStatus] 10)) :=
  ⟨by decide, pages_eq_ceil [oUnknownStatus] 10 (by decide)⟩

/-! ### Unique filter options (`page.tsx` and `OrderTable`) -/

/-- First-seen deduplication: the JavaScript idiom
`Array.from(new Set(xs))` keeps the first occurrence of each value in
encounter order; equivalently, keep the head and strip every later
copy of it from the deduplicated tail. -/
def dedupFirst : List String → List String
  | [] => []
  | x :: xs => x :: (dedupFirst xs).filter (fun y => y != x)

lemma mem_dedupFirst (a : String) (l : List String) :
    a ∈ dedupFirst l ↔ a ∈ l := by
  induction l with
  | nil => simp [dedupFirst]
  | cons x xs ih =>
      simp only [dedupFirst, List.mem_cons, List.mem_filter, bne_iff_ne, ne_eq, ih]
      by_cases hax : a = x
      · simp [hax]
      · simp [hax]

lemma nodup_dedupFirst (l : List String) : (dedupFirst l).Nodup := by
  induction l with
  | nil => simp [dedupFirst]
  | cons x xs ih =>
      rw [dedupFirst]
      refine List.nodup_cons.mpr ⟨?_, ih.filter _⟩
      simp [List.mem_filter]

lemma filter_comm_strings (p q : String → Bool) (l : List String) :
    (l.filter q).filter p = (l.filter p).filter q := by
  simp [List.filter_filter, Bool.and_comm]

lemma dedupFirst_filter_comm (p : String → Bool) (l : List String) :
    dedupFirst (l.filter p) = (dedupFirst l).filter p := by
  induction l with
  | nil => simp [dedupFirst]
  | cons x xs ih =>
      by_cases hx : p x = true
      · rw [List.filter_cons_of_pos hx]
        simp only [dedupFirst]
        rw [ih, List.filter_cons_of_pos hx]
        congr 1
        exact filter_comm_strings (fun y => y != x) p (dedupFirst xs)
      · have hx' : ¬ p x = true := hx
        rw [List.filter_cons_of_neg hx']
        simp only [dedupFirst]
        rw [List.filter_cons_of_neg hx', ih,
          filter_comm_strings p (fun y => y != x) (dedupFirst xs)]
        apply (List.filter_eq_self.mpr _).symm
        intro a ha
        simp only [List.mem_filter] at ha
        simp only [bne_iff_ne, ne_eq]
        intro hax
        rw [hax] at ha
        exact hx ha.2

/-- `getUnique` from `page.tsx`: first-seen deduplication of a column,
then `filter(Boolean)`, which drops the empty string. -/
def getUnique (os : List Order) (f : Order → String) : List String :=
  (dedupFirst (os.map f)).filter (fun s => s != "")

/-- `allStatuses` from `page.tsx`: first-seen deduplication of the
interleaved left and right statuses.  No `filter(Boolean)` here. -/
def allStatuses (os : List Order) : List String :=
  dedupFirst (os.flatMap (fun o => [o.statusLeft, o.statusRight]))

/-- The `uniqueValues` record of `page.tsx`, as a function of the
filter key (`OID` is not a filter key; `days` is an empty list there). -/
def uniqueValues (os : List Order) : FilterKey → List String
  | .status => allStatuses os
  | .type => getUnique os (fun o => o.type)
  | .lock => getUnique os (fun o => o.lock)
  | .customer => getUnique os (fun o => o.customer)
  | .model => getUnique os (fun o => o.model)
  | .designer => getUnique os (fun o => o.designer)
  | .days => []

/-- `DAYS_FILTER_OPTIONS` from `OrderTable`. -/
def daysFilterOptions : List String := ["<5", "<15", "<30", "<60"]

/-- `getOptionsForKey` from `OrderTable`: the fixed bucket labels for
`days`, the extracted unique values for every other key. -/
def getOptionsForKey (os : List Order) (key : FilterKey) : List String :=
  match key with
  | .days => daysFilterOptions
  | k => uniqueValues os k

/-- Specification wording: the distinct non-empty values of a column,
in first-seen order. -/
def distinctNonEmptyFirstSeen (values : List String) : List String :=
  dedupFirst (values.filter (fun s => s != ""))

/-- C8 (amended): for the five plain string fields `uniqueValues` is
exactly the distinct non-empty values in first-seen order; the
`status` options merge `statusLeft` and `statusRight` in first-seen
order but keep empty values (no `filter(Boolean)` there, unlike the
other fields); the `days` options are the fixed bucket labels,
independent of the data. -/
theorem uniqueValues_spec (os : List Order) :
    (uniqueValues os .type = distinctNonEmptyFirstSeen (os.map (fun o => o.type)) ∧
     uniqueValues os .lock = distinctNonEmptyFirstSeen (os.map (fun o => o.lock)) ∧
     uniqueValues os .customer = distinctNonEmptyFirstSeen (os.map (fun o => o.customer)) ∧
     uniqueValues os .model = distinctNonEmptyFirstSeen (os.map (fun o => o.model)) ∧
     uniqueValues os .designer = distinctNonEmptyFirstSeen (os.map (fun o => o.designer))) ∧
    (∀ f : Order → String, ∀ v,
      v ∈ getUnique os f ↔ v ≠ "" ∧ ∃ o ∈ os, f o = v) ∧
    (∀ v, v ∈ uniqueValues os .status ↔
      ∃ o ∈ os, v = o.statusLeft ∨ v = o.statusRight) ∧
    (∀ k, (uniqueValues os k).Nodup) ∧
    getOptionsForKey os .days = ["<5", "<15", "<30", "<60"] := by
  have hplain : ∀ f : Order → String,
      getUnique os f = distinctNonEmptyFirstSeen (os.map f) := by
    intro f
    unfold getUnique distinctNonEmptyFirstSeen
    exact (dedupFirst_filter_comm _ _).symm
  refine ⟨⟨hplain _, hplain _, hplain _, hplain _, hplain _⟩, ?_, ?_, ?_, rfl⟩
  · intro f v
    simp only [getUnique, List.mem_filter, mem_dedupFirst, List.mem_map,
      bne_iff_ne, ne_eq]
    tauto
  · intro v
    simp only [uniqueValues, allStatuses, mem_dedupFirst, List.mem_flatMap,
      List.mem_cons, List.not_mem_nil, or_false]
  · intro k
    cases k
    · exact nodup_dedupFirst _
    · exact (nodup_dedupFirst _).filter _
    · exact (nodup_dedupFirst _).filter _
    · exact (nodup_dedupFirst _).filter _
    · exact (nodup_dedupFirst _).filter _
    · exact (nodup_dedupFirst _).filter _
    · exact List.nodup_nil

/-- An order whose left status is the empty string. -/
def emptyStatusOrder : Order :=
  ⟨7, "", "Delivered", "Order", "", "ACME", 2, "M", "D"⟩

/-- C8 counterexample: the status options are not restricted to
non-empty values — an order with an empty `statusLeft` puts the empty
string into `uniqueValues(status)`. -/
theorem uniqueValues_status_empty_counterexample :
    uniqueValues [emptyStatusOrder] .status = ["", "Delivered"] ∧
    "" ∈ uniqueValues [emptyStatusOrder] .status := by
  decide

/-! ### Preset store (`PresetManager`, `HomePage`) -/

/-- The state the preset manager touches: its in-memory preset list
and the `order-presets` store key (whole-value replace, modelled at
the parsed level). -/
structure PMState where
  presets : List Preset
  stored : Option (List Preset)
  deriving DecidableEq, Repr

/-- `savePreset` from `PresetManager`: a name that trims to empty is
rejected by the guard and nothing happens (the validation failure of
the specification); otherwise every preset of the same name is
dropped, the new preset is appended, and the whole collection is
rewritten to the store. -/
def savePreset (name : String) (filters : FilterState) (sortKey : SortKey)
    (sortDirection : SortDir) (st : PMState) : PMState :=
  if jsTrim name = "" then st
  else
    let newPreset : Preset := ⟨name, filters, sortKey, sortDirection⟩
    let updated := (st.presets.filter (fun p => p.name != name)) ++ [newPreset]
    ⟨updated, some updated⟩

/-- Lookup of a preset by name, as `HomePage` does with
`all.find((p) => p.name === activeName)`. -/
def findPreset (name : String) (ps : List Preset) : Option Preset :=
  ps.find? (fun p => p.name == name)

/-- The mount effect of `PresetManager`: read the `order-presets` key
and, when a value is present, hand it straight to `JSON.parse` with no
try/catch around it.  The parser is a parameter of the model, since
`JSON.parse` is a platform primitive; all that matters here is that
its failure propagates out of the load. -/
def loadPresetsPM (parse : String → Except String (List Preset))
    (stored : Option String) : Except String (List Preset) :=
  match stored with
  | none => Except.ok []
  | some s => parse s

/-- The load effect of `HomePage`, which does wrap its store reads in
try/catch: a parse failure is caught and the filters keep their
defaults. -/
def loadFiltersHome (parse : String → Except String FilterState)
    (stored : Option String) : FilterState :=
  match stored with
  | none => defaultFilterState
  | some s =>
    match parse s with
    | Except.ok fs => fs
    | Except.error _ => defaultFilterState

/-- C3: at a stored value the parser rejects, the preset-manager load
does not yield an empty list — the parse failure propagates unchanged
(its read has no try/catch), even though the guarded `HomePage` load
recovers to defaults on the same kind of failure. -/
theorem loadPresetsPM_propagates_parse_error
    (parse : String → Except String (List Preset))
    (parseF : String → Except String FilterState)
    (s e eF : String)
    (h : parse s = Except.error e) (hF : parseF s = Except.error eF) :
    loadPresetsPM parse (some s) = Except.error e ∧
    loadPresetsPM parse (some s) ≠ Except.ok [] ∧
    loadFiltersHome parseF (some s) = defaultFilterState := by
  refine ⟨by simpa [loadPresetsPM] using h, ?_, by simp [loadFiltersHome, hF]⟩
  simp [loadPresetsPM, h]

/-- A parser that fails on the concrete corrupt document used as the
failing input (a lone opening brace), as `JSON.parse` does. -/
def failingPresetDoc : String := "\x7b"

/-- The preset parser at the corrupt document. -/
def parsePresetsStub : String → Except String (List Preset) :=
  fun s => if s = failingPresetDoc then Except.error "SyntaxError" else Except.ok []

/-- The filter-state parser at the corrupt document. -/
def parseFiltersStub : String → Except String FilterState :=
  fun s =>
    if s = failingPresetDoc then Except.error "SyntaxError"
    else Except.ok defaultFilterState

/-- Witness for C3 at the corrupt document. -/
theorem loadPresetsPM_propagates_parse_error_witness :
    loadPresetsPM parsePresetsStub (some failingPresetDoc) = Except.error "SyntaxError" ∧
    loadPresetsPM parsePresetsStub (some failingPresetDoc) ≠ Except.ok [] ∧
    loadFiltersHome parseFiltersStub (some failingPresetDoc) = defaultFilterState :=
  loadPresetsPM_propagates_parse_error parsePresetsStub parseFiltersStub
    failingPresetDoc "SyntaxError" "SyntaxError"
    (by simp [parsePresetsStub]) (by simp [parseFiltersStub])

/-- C5: a name that trims to empty is rejected and the whole state —
in particular the persisted collection — is unchanged; any other name
upserts with replace-by-name semantics and rewrites the full
collection to the store. -/
theorem savePreset_validation (name : String) (F : FilterState) (k : SortKey)
    (d : SortDir) (st : PMState) :
    (jsTrim name = "" → savePreset name F k d st = st) ∧
    (jsTrim name ≠ "" →
      savePreset name F k d st =
        ⟨(st.presets.filter (fun p => p.name != name)) ++ [⟨name, F, k, d⟩],
         some ((st.presets.filter (fun p => p.name != name)) ++ [⟨name, F, k, d⟩])⟩) := by
  constructor
  · intro h
    simp [savePreset, h]
  · intro h
    simp [savePreset, h]

/-- Witness for C5: a whitespace-only name is rejected with the state
unchanged; the name X is saved and the collection rewritten. -/
theorem savePreset_validation_witness :
    savePreset " " defaultFilterState .oid .asc ⟨[], none⟩ = ⟨[], none⟩ ∧
    savePreset "X" defaultFilterState .oid .asc ⟨[], none⟩ =
      ⟨[⟨"X", defaultFilterState, .oid, .asc⟩],
       some [⟨"X", defaultFilterState, .oid, .asc⟩]⟩ := by
  constructor
  · exact (savePreset_validation " " defaultFilterState .oid .asc ⟨[], none⟩).1 (by decide)
  · have h := (savePreset_validation "X" defaultFilterState .oid .asc ⟨[], none⟩).2 (by decide)
    simpa using h

/-- C6: saving a preset named X and then looking X up returns exactly
the saved tuple — filters deep-equal, sort key and direction intact —
and the store holds the full rewritten collection. -/
theorem save_then_load_roundtrip (F : FilterState) (st : PMState) :
    findPreset "X" (savePreset "X" F .oid .asc st).presets =
      some ⟨"X", F, .oid, .asc⟩ ∧
    (savePreset "X" F .oid .asc st).stored =
      some (savePreset "X" F .oid .asc st).presets := by
  have hname : ¬ jsTrim "X" = "" := by decide
  constructor
  · simp only [savePreset, if_neg hname, findPreset]
    rw [List.find?_append]
    have h1 : (st.presets.filter (fun p => p.name != "X")).find?
        (fun p => p.name == "X") = none := by
      rw [List.find?_eq_none]
      intro p hp
      simp only [List.mem_filter, bne_iff_ne, ne_eq] at hp
      simp [beq_iff_eq]
      exact hp.2
    rw [h1]
    simp [List.find?]
  · simp [savePreset, if_neg hname]

/-- C10: saving under a name upserts at the end of the list: the
result is the old list minus any preset of that name, with the new
preset appended last; every other preset keeps its relative order. -/
theorem savePreset_upsert_order (name : String) (F : FilterState) (k : SortKey)
    (d : SortDir) (st : PMState) (hname : jsTrim name ≠ "") :
    (savePreset name F k d st).presets =
      (st.presets.filter (fun p => p.name != name)) ++ [⟨name, F, k, d⟩] ∧
    (savePreset name F k d st).presets.getLast? = some ⟨name, F, k, d⟩ ∧
    (∀ p ∈ (savePreset name F k d st).presets, p.name = name → p = ⟨name, F, k, d⟩) ∧
    (savePreset name F k d st).presets.filter (fun p => p.name != name) =
      st.presets.filter (fun p => p.name != name) := by
  have heq : (savePreset name F k d st).presets =
      (st.presets.filter (fun p => p.name != name)) ++ [⟨name, F, k, d⟩] := by
    simp [savePreset, hname]
  refine ⟨heq, ?_, ?_, ?_⟩
  · rw [heq, List.getLast?_append]
    rfl
  · intro p hp hpname
    rw [heq, List.mem_append] at hp
    rcases hp with hp | hp
    · exfalso
      simp only [List.mem_filter, bne_iff_ne, ne_eq] at hp
      exact hp.2 hpname
    · simpa using hp
  · rw [heq, List.filter_append, List.filter_filter]
    have h2 : List.filter (fun p : Preset => p.name != name) [⟨name, F, k, d⟩] = [] := by
      simp
    rw [h2, List.append_nil]
    congr 1
    funext a
    exact Bool.and_self _

/-- A preset named A, used by the concrete witnesses. -/
def presetA : Preset := ⟨"A", defaultFilterState, .oid, .asc⟩

/-- An older preset named X, to be overwritten. -/
def presetXOld : Preset := ⟨"X", defaultFilterState, .customer, .desc⟩

/-- Witness for C10: overwriting the name X in a two-preset list. -/
theorem savePreset_upsert_order_witness :
    (savePreset "X" defaultFilterState .oid .asc ⟨[presetA, presetXOld], none⟩).presets =
      ([presetA, presetXOld].filter (fun p => p.name != "X")) ++
        [⟨"X", defaultFilterState, .oid, .asc⟩] ∧
    (savePreset "X" defaultFilterState .oid .asc
        ⟨[presetA, presetXOld], none⟩).presets.getLast? =
      some ⟨"X", defaultFilterState, .oid, .asc⟩ ∧
    (∀ p ∈ (savePreset "X" defaultFilterState .oid .asc
        ⟨[presetA, presetXOld], none⟩).presets,
      p.name = "X" → p = ⟨"X", defaultFilterState, .oid, .asc⟩) ∧
    (savePreset "X" defaultFilterState .oid .asc
        ⟨[presetA, presetXOld], none⟩).presets.filter (fun p => p.name != "X") =
      [presetA, presetXOld].filter (fun p => p.name != "X") :=
  savePreset_upsert_order "X" defaultFilterState .oid .asc
    ⟨[presetA, presetXOld], none⟩ (by decide)

/-! ### Page-reset behaviour of the UI mutators (`OrderTable`, `PresetManager`) -/

/-- Read one field of the filter state. -/
def getField (fs : FilterState) : FilterKey → List String
  | .status => fs.status
  | .type => fs.type
  | .lock => fs.lock
  | .customer => fs.customer
  | .model => fs.model
  | .designer => fs.designer
  | .days => fs.days

/-- Replace one field of the filter state. -/
def setField (fs : FilterState) (k : FilterKey) (v : List String) : FilterState :=
  match k with
  | .status => { fs with status := v }
  | .type => { fs with type := v }
  | .lock => { fs with lock := v }
  | .customer => { fs with customer := v }
  | .model => { fs with model := v }
  | .designer => { fs with designer := v }
  | .days => { fs with days := v }

/-- The state the dashboard mutators touch: the filter and sort state
of `HomePage`, the active-preset pointer, and the `page` state that
lives inside `OrderTable`. -/
structure DashboardState where
  filters : FilterState
  sortKey : SortKey
  sortDirection : SortDir
  activePresetName : Option String
  page : Nat
  deriving DecidableEq, Repr

/-- `handleToggleOption` from `OrderTable`: toggle one option of one
field through a set (first-seen order, delete when present, append
when absent) and reset the page to 1. -/
def handleToggleOption (st : DashboardState) (key : FilterKey) (opt : String) :
    DashboardState :=
  let current := dedupFirst (getField st.filters key)
  let updated :=
    if current.contains opt then current.filter (fun y => y != opt)
    else current ++ [opt]
  { st with filters := setField st.filters key updated, page := 1 }

/-- `selectAll` from `OrderTable`: replace the whole selection of one
field and reset the page to 1. -/
def selectAll (st : DashboardState) (key : FilterKey) (options : List String) :
    DashboardState :=
  { st with filters := setField st.filters key options, page := 1 }

/-- `clearFilter` from `OrderTable`: clear one field and reset the
page to 1. -/
def clearFilter (st : DashboardState) (key : FilterKey) : DashboardState :=
  { st with filters := setField st.filters key [], page := 1 }

/-- `handleAllSelect` from `OrderTable`: select every option of every
field and reset the page to 1. -/
def handleAllSelect (os : List Order) (st : DashboardState) : DashboardState :=
  { st with
      filters :=
        ⟨uniqueValues os .status, uniqueValues os .type, uniqueValues os .lock,
         uniqueValues os .customer, uniqueValues os .model,
         uniqueValues os .designer, daysFilterOptions⟩,
      page := 1 }

/-- The Clear Selection button of the `oid` column in `OrderTable`:
clears every filter field and the active-preset pointer.  It does not
touch the page state. -/
def clearSelection (st : DashboardState) : DashboardState :=
  { st with filters := defaultFilterState, activePresetName := none }

/-- `loadPreset` from `PresetManager`: overwrite the filter and sort
state and record the active preset.  The page state of `OrderTable`
is not touched. -/
def loadPreset (preset : Preset) (st : DashboardState) : DashboardState :=
  { st with
      filters := preset.filters,
      sortKey := preset.sortKey,
      sortDirection := preset.sortDirection,
      activePresetName := some preset.name }

/-- A dashboard state currently on page 2. -/
def pageTwoState : DashboardState :=
  ⟨defaultFilterState, .oid, .asc, none, 2⟩

/-- C9 counterexample: clearing all fields and loading a preset are
filter-state mutations that leave the page where it was — here page 2
— instead of resetting it to 1. -/
theorem page_reset_counterexample :
    (clearSelection pageTwoState).page = 2 ∧
    (loadPreset presetA pageTwoState).page = 2 ∧
    ¬ (clearSelection pageTwoState).page = 1 := by
  decide

/-- C9 (amended): toggling an option, selecting all options of one
field, clearing one field, and the global select-all each reset the
page to 1; the clear-all-fields button and loading a preset leave the
page unchanged. -/
theorem page_reset_behaviour (st : DashboardState) (key : FilterKey)
    (opt : String) (options : List String) (os : List Order) (p : Preset) :
    (handleToggleOption st key opt).page = 1 ∧
    (selectAll st key options).page = 1 ∧
    (clearFilter st key).page = 1 ∧
    (handleAllSelect os st).page = 1 ∧
    (clearSelection st).page = st.page ∧
    (loadPreset p st).page = st.page :=
  ⟨rfl, rfl, rfl, rfl, rfl, rfl⟩
